import Mathlib

/-!
Shallow embedding of `src/editor/undo.ts` (class `UndoManager`) from the
mathlive repository, together with proofs of the specified properties of the
undo/redo history engine.

The TypeScript class holds a reference to a document model (`ModelPrivate`)
with two capabilities, `getState()` and `setState(state, options)`.  Here the
model is a field of the engine state and every method is a pure function from
engine state to engine state (returning the boolean result where the source
does).  JavaScript numbers used as stack indices are embedded as `Int`
(the index is `-1` on an empty stack).  `Array.prototype.splice(start, count)`
with `0 <= start <= length` removes `count` elements from `start`; the two
call sites (`pop`, `snapshot`) use it to truncate the array to its first
`start` elements, which is `List.take`.  `Array.prototype.shift()` removes
the first element (`List.tail` on a nonempty list).  `console.log` calls are
diagnostic tracing with no effect on the state and are omitted.
-/

namespace UndoSpec

/-- Modelled from the spec: the `Selection` type from `public/mathfield` is
not part of the extracted source; the spec treats it as an opaque value
stored in a snapshot.  We embed it as an opaque wrapper. -/
structure Selection where
  val : Nat
deriving DecidableEq, Repr, Inhabited

/-- Modelled from the spec: `ModelState` from `editor-model/model-private` is
not part of the extracted source; per the spec a snapshot is "an opaque,
fully self-contained representation of the document model's state, including
at minimum: document content and the active selection". -/
structure ModelState where
  content : Nat
  selection : Selection
deriving DecidableEq, Repr, Inhabited

/-- The `options` argument of `setState` as used by `undo`/`redo`:
`{ silenceNotifications: false, type: 'undo' | 'redo' }`. -/
structure SetStateOptions where
  silenceNotifications : Bool
  type : String
deriving DecidableEq, Repr, Inhabited

/-- Modelled from the spec: the document-model collaborator contract,
`getState() -> Snapshot` and `setState(snapshot, options) -> void`.
`lastSet` records the argument of the most recent `setState` call so that
the transition kind ("undo"/"redo") reported to the model is observable. -/
structure Model where
  state : ModelState
  lastSet : Option (ModelState × SetStateOptions)
deriving DecidableEq, Repr, Inhabited

def Model.getState (m : Model) : ModelState := m.state

def Model.setState (m : Model) (s : ModelState) (opts : SetStateOptions) : Model :=
  { m with state := s, lastSet := some (s, opts) }

/-- `static readonly maximumDepth = 1000`. -/
def maximumDepth : Nat := 1000

/-- The state of an `UndoManager` instance, together with its document model. -/
structure UndoManager where
  model : Model
  recording : Bool
  stack : List ModelState
  index : Int
  lastOp : String
deriving DecidableEq, Repr, Inhabited

/-- `reset()`: clears the stack, sets the index to `-1`, clears `lastOp`. -/
def reset (u : UndoManager) : UndoManager :=
  { u with stack := [], index := -1, lastOp := "" }

/-- The constructor: stores the model and calls `reset()`.  (`recording`
has the field initializer `false`.) -/
def make (m : Model) : UndoManager :=
  reset { model := m, recording := false, stack := [], index := -1, lastOp := "" }

/-- `startRecording()`. -/
def startRecording (u : UndoManager) : UndoManager :=
  { u with recording := true }

/-- `stopRecording()`. -/
def stopRecording (u : UndoManager) : UndoManager :=
  { u with recording := false }

/-- `canUndo()`: `this.index - 1 >= 0`. -/
def canUndo (u : UndoManager) : Bool :=
  decide (u.index - 1 ≥ 0)

/-- `canRedo()`: `this.stack.length - 1 > this.index`. -/
def canRedo (u : UndoManager) : Bool :=
  decide ((u.stack.length : Int) - 1 > u.index)

/-- `stopCoalescing(selection?)`: if a selection is supplied (a supplied
`Selection` object is always truthy) and `this.index >= 0`, overwrite the
`selection` field of `stack[index]` in place; then clear `lastOp`.
In every reachable state `index >= 0` implies `index < stack.length`, so the
element access is in range; `List.set`/`List.getD` are no-ops out of range. -/
def stopCoalescing (selection : Option Selection) (u : UndoManager) : UndoManager :=
  let u' :=
    match selection with
    | some sel =>
        if u.index ≥ 0 then
          let cur := u.stack.getD u.index.toNat default
          { u with stack := u.stack.set u.index.toNat { cur with selection := sel } }
        else u
    | none => u
  { u' with lastOp := "" }

/-- `undo()`: if `canUndo()` fails return `false`; otherwise restore the
model to `stack[index - 1]` with transition kind `"undo"`, decrement the
index, clear `lastOp`, return `true`.  `canUndo` guarantees `index - 1 >= 0`,
and in every reachable state `index < stack.length`, so the element access is
in range (`List.getD` defaults out of range). -/
def undo (u : UndoManager) : UndoManager × Bool :=
  if !canUndo u then (u, false)
  else
    let target := u.stack.getD (u.index - 1).toNat default
    ({ u with
        model := u.model.setState target ⟨false, "undo"⟩
        index := u.index - 1
        lastOp := "" }, true)

/-- `redo()`: if `canRedo()` fails return `false`; otherwise increment the
index, restore the model to `stack[index]` with transition kind `"redo"`,
clear `lastOp`, return `true`. -/
def redo (u : UndoManager) : UndoManager × Bool :=
  if !canRedo u then (u, false)
  else
    let i := u.index + 1
    let target := u.stack.getD i.toNat default
    ({ u with
        model := u.model.setState target ⟨false, "redo"⟩
        index := i
        lastOp := "" }, true)

/-- `pop()`: if `canUndo()` fails do nothing; otherwise
`stack.splice(index, length - index)` (truncate to the first `index`
elements) and decrement the index.  `canUndo` guarantees `index >= 1`. -/
def pop (u : UndoManager) : UndoManager :=
  if !canUndo u then u
  else { u with stack := u.stack.take u.index.toNat, index := u.index - 1 }

/-- The condition `op && op === this.lastOp`: `op` must be supplied, truthy
(a nonempty string) and equal to `lastOp`. -/
def coalesces (op : Option String) (lastOp : String) : Bool :=
  match op with
  | none => false
  | some s => !(s == "") && s == lastOp

/-- Steps 3–7 of `snapshot(op?)`, applied to the state left by the optional
coalescing `pop()`:
3. `stack.splice(index + 1, length - index - 1)` (drop the redo branch,
   i.e. truncate to the first `index + 1` elements; in every reachable
   state `index >= -1` so `(index + 1).toNat` agrees with the source);
4. push `model.getState()`;
5. increment the index;
6. if `stack.length > maximumDepth`, `stack.shift()` and decrement the index;
7. set `lastOp` to `op ?? ''`. -/
def snapApply (op : Option String) (u1 : UndoManager) : UndoManager :=
  let stack2 := u1.stack.take (u1.index + 1).toNat ++ [u1.model.getState]
  let index2 := u1.index + 1
  if stack2.length > maximumDepth then
    { u1 with stack := stack2.tail, index := index2 - 1, lastOp := op.getD "" }
  else
    { u1 with stack := stack2, index := index2, lastOp := op.getD "" }

/-- `snapshot(op?)`:
1. if not recording, return `false`;
2. if `op && op === lastOp`, call `pop()`;
3.–7. see `snapApply`; return `true`. -/
def snapshot (op : Option String) (u : UndoManager) : UndoManager × Bool :=
  if !u.recording then (u, false)
  else (snapApply op (if coalesces op u.lastOp then pop u else u), true)

/-- A host edit: the document model's live state changes between calls into
the engine.  (The engine itself never mutates `model.state` outside of
`setState` during undo/redo.) -/
def hostEdit (s : ModelState) (u : UndoManager) : UndoManager :=
  { u with model := { u.model with state := s } }

/-- Position validity: `-1 <= index < stack.length`; whenever the stack is
nonempty, `0 <= index <= stack.length - 1`; `index = -1` only when the stack
is empty. -/
def Inv (u : UndoManager) : Prop :=
  -1 ≤ u.index ∧ u.index < (u.stack.length : Int) ∧
    (0 < u.stack.length → 0 ≤ u.index ∧ u.index ≤ (u.stack.length : Int) - 1) ∧
    (u.index = -1 → u.stack.length = 0)

instance (u : UndoManager) : Decidable (Inv u) :=
  inferInstanceAs (Decidable (-1 ≤ u.index ∧ u.index < (u.stack.length : Int) ∧
    (0 < u.stack.length → 0 ≤ u.index ∧ u.index ≤ (u.stack.length : Int) - 1) ∧
    (u.index = -1 → u.stack.length = 0)))

/-- A coalescing context (`lastOp ≠ ''`) exists only while the index is at
the newest entry. -/
def CoalesceInv (u : UndoManager) : Prop :=
  u.lastOp ≠ "" → u.index = (u.stack.length : Int) - 1

instance (u : UndoManager) : Decidable (CoalesceInv u) :=
  inferInstanceAs (Decidable (u.lastOp ≠ "" → u.index = (u.stack.length : Int) - 1))

/-- A sequence of `snapshot` calls, each preceded by a host edit that sets
the document model's live state for that call. -/
def runSnapshots : UndoManager → List (Option String × ModelState) → UndoManager
  | u, [] => u
  | u, (op, s) :: rest => runSnapshots (snapshot op (hostEdit s u)).1 rest

/-- A model state with content `k` (distinct for distinct `k`). -/
def mkState (k : Nat) : ModelState :=
  { content := k, selection := ⟨0⟩ }

/-- A freshly constructed engine (on an arbitrary initial model content)
with recording started. -/
def freshRecording : UndoManager :=
  startRecording (make { state := mkState 0, lastSet := none })

/-- `n` distinct non-coalescing snapshots (`op` omitted) from a freshly
constructed engine with recording enabled: the `k`-th call (0-based)
snapshots the model state `mkState k`. -/
def evictRun : Nat → UndoManager
  | 0 => freshRecording
  | n + 1 => (snapshot none (hostEdit (mkState n) (evictRun n))).1

/-- A sample engine state: recording, three snapshots on the stack, index at
the top, no coalescing context. -/
def sampleA : UndoManager :=
  { model := { state := mkState 3, lastSet := none }
    recording := true
    stack := [mkState 0, mkState 1, mkState 2]
    index := 2
    lastOp := "" }

/-- `sampleA` with an active coalescing context. -/
def sampleTagged : UndoManager :=
  { sampleA with lastOp := "insert" }

/-! ### Helper lemmas -/

lemma canUndo_iff (u : UndoManager) : canUndo u = true ↔ 1 ≤ u.index := by
  simp only [canUndo, decide_eq_true_eq]
  omega

lemma canRedo_iff (u : UndoManager) :
    canRedo u = true ↔ u.index < (u.stack.length : Int) - 1 := by
  simp only [canRedo, decide_eq_true_eq, gt_iff_lt]

lemma getD_append_last (l : List ModelState) (m d : ModelState) :
    (l ++ [m]).getD l.length d = m := by
  induction l with
  | nil => rfl
  | cons a t ih => simp [List.getD, ih]

lemma pop_model (u : UndoManager) : (pop u).model = u.model := by
  unfold pop; split <;> rfl

lemma pop_recording (u : UndoManager) : (pop u).recording = u.recording := by
  unfold pop; split <;> rfl

lemma pop_lastOp (u : UndoManager) : (pop u).lastOp = u.lastOp := by
  unfold pop; split <;> rfl

lemma pop_length_le (u : UndoManager) : (pop u).stack.length ≤ u.stack.length := by
  unfold pop; split
  · exact le_rfl
  · simp [List.length_take]

lemma pop_bounds (u : UndoManager) (h1 : -1 ≤ u.index)
    (h2 : u.index < (u.stack.length : Int)) :
    -1 ≤ (pop u).index ∧ (pop u).index < ((pop u).stack.length : Int) := by
  unfold pop
  split
  · exact ⟨h1, h2⟩
  · rename_i h
    simp only [Bool.not_eq_true', Bool.not_eq_false] at h
    rw [canUndo_iff] at h
    simp only [List.length_take]
    constructor
    · omega
    · have : (min u.index.toNat u.stack.length : Int) = u.index := by omega
      omega

lemma snapApply_spec (op : Option String) (u1 : UndoManager)
    (h1 : -1 ≤ u1.index) (h2 : u1.index < (u1.stack.length : Int)) :
    (snapApply op u1).model = u1.model ∧
    (snapApply op u1).recording = u1.recording ∧
    (snapApply op u1).lastOp = op.getD "" ∧
    0 < (snapApply op u1).stack.length ∧
    ((snapApply op u1).stack.length : Int) = (snapApply op u1).index + 1 ∧
    (snapApply op u1).stack.getD ((snapApply op u1).stack.length - 1) default
      = u1.model.state := by
  have hA : (u1.stack.take (u1.index + 1).toNat).length = (u1.index + 1).toNat := by
    simp only [List.length_take]
    omega
  simp only [snapApply]
  split
  · rename_i hgt
    simp only [List.length_append, List.length_cons, List.length_nil] at hgt
    obtain ⟨a, A', hcons⟩ :
        ∃ a A', u1.stack.take (u1.index + 1).toNat = a :: A' := by
      rcases h : u1.stack.take (u1.index + 1).toNat with _ | ⟨a, A'⟩
      · exfalso
        rw [h] at hgt
        simp [maximumDepth] at hgt
      · exact ⟨a, A', rfl⟩
    rw [hcons] at hA ⊢
    simp only [List.cons_append, List.tail_cons]
    refine ⟨by trivial, by trivial, by trivial, by simp, ?_, ?_⟩
    · simp only [List.length_append, List.length_cons, List.length_nil] at *
      omega
    · simp only [List.length_append, List.length_cons, List.length_nil,
        Nat.add_sub_cancel]
      exact getD_append_last A' _ _
  · rename_i hle
    refine ⟨by trivial, by trivial, by trivial, by simp, ?_, ?_⟩
    · simp only [List.length_append, List.length_cons, List.length_nil]
      omega
    · simp only [List.length_append, List.length_cons, List.length_nil,
        Nat.add_sub_cancel]
      rw [← hA]
      exact getD_append_last _ _ _

lemma snapshot_not_recording (op : Option String) (u : UndoManager)
    (h : u.recording = false) : snapshot op u = (u, false) := by
  simp [snapshot, h]

lemma snapshot_eq_snapApply (op : Option String) (u : UndoManager)
    (hrec : u.recording = true) :
    snapshot op u
      = (snapApply op (if coalesces op u.lastOp then pop u else u), true) := by
  simp [snapshot, hrec]

lemma snapshot_spec (op : Option String) (u : UndoManager)
    (hrec : u.recording = true) (h1 : -1 ≤ u.index)
    (h2 : u.index < (u.stack.length : Int)) :
    (snapshot op u).2 = true ∧
    (snapshot op u).1.model = u.model ∧
    (snapshot op u).1.recording = true ∧
    (snapshot op u).1.lastOp = op.getD "" ∧
    0 < (snapshot op u).1.stack.length ∧
    ((snapshot op u).1.stack.length : Int) = (snapshot op u).1.index + 1 ∧
    (snapshot op u).1.stack.getD ((snapshot op u).1.stack.length - 1) default
      = u.model.state := by
  rw [snapshot_eq_snapApply op u hrec]
  by_cases hc : coalesces op u.lastOp = true
  · simp only [hc, if_true]
    obtain ⟨hb1, hb2⟩ := pop_bounds u h1 h2
    obtain ⟨hm, hr, hl, hpos, hlen, hget⟩ := snapApply_spec op (pop u) hb1 hb2
    refine ⟨by trivial, hm.trans (pop_model u), ?_, hl, hpos, hlen, ?_⟩
    · rw [hr, pop_recording u, hrec]
    · rw [hget, pop_model u]
  · simp only [Bool.not_eq_true] at hc
    simp only [hc, Bool.false_eq_true, if_false]
    obtain ⟨hm, hr, hl, hpos, hlen, hget⟩ := snapApply_spec op u h1 h2
    exact ⟨by trivial, hm, hr.trans hrec, hl, hpos, hlen, hget⟩

lemma snapApply_length_le (op : Option String) (u1 : UndoManager)
    (h : u1.stack.length ≤ maximumDepth) :
    (snapApply op u1).stack.length ≤ maximumDepth := by
  have htake : (u1.stack.take (u1.index + 1).toNat).length ≤ u1.stack.length := by
    rw [List.length_take]
    exact inf_le_right
  simp only [snapApply]
  split
  · rename_i hgt
    dsimp only
    simp only [List.length_tail, List.length_append, List.length_cons,
      List.length_nil]
    omega
  · rename_i hle
    dsimp only
    omega

lemma snapshot_length_le (op : Option String) (u : UndoManager)
    (h : u.stack.length ≤ maximumDepth) :
    (snapshot op u).1.stack.length ≤ maximumDepth := by
  rcases hrec : u.recording with _ | _
  · rw [snapshot_not_recording op u hrec]
    exact h
  · rw [snapshot_eq_snapApply op u hrec]
    apply snapApply_length_le
    split
    · exact le_trans (pop_length_le u) h
    · exact h

lemma runSnapshots_length_le (steps : List (Option String × ModelState))
    (u : UndoManager) (h : u.stack.length ≤ maximumDepth) :
    (runSnapshots u steps).stack.length ≤ maximumDepth := by
  induction steps generalizing u with
  | nil => exact h
  | cons p rest ih =>
    obtain ⟨op, s⟩ := p
    exact ih _ (snapshot_length_le op (hostEdit s u) h)

lemma inv_iff (u : UndoManager) :
    Inv u ↔ -1 ≤ u.index ∧ u.index < (u.stack.length : Int) ∧
      (0 < u.stack.length → 0 ≤ u.index) := by
  unfold Inv
  omega

lemma inv_reset (u : UndoManager) : Inv (reset u) := by
  simp [Inv, reset]

lemma inv_startRecording (u : UndoManager) (h : Inv u) : Inv (startRecording u) :=
  h

lemma inv_stopRecording (u : UndoManager) (h : Inv u) : Inv (stopRecording u) :=
  h

lemma inv_stopCoalescing (sel : Option Selection) (u : UndoManager) (h : Inv u) :
    Inv (stopCoalescing sel u) := by
  unfold stopCoalescing
  rcases sel with _ | s
  · exact h
  · dsimp only
    split
    · simp only [Inv, List.length_set] at h ⊢
      exact h
    · exact h

lemma inv_pop (u : UndoManager) (h : Inv u) : Inv (pop u) := by
  unfold pop
  split
  · exact h
  · rename_i hc
    simp only [Bool.not_eq_true', Bool.not_eq_false] at hc
    rw [canUndo_iff] at hc
    simp only [Inv, List.length_take] at h ⊢
    omega

lemma inv_snapshot (op : Option String) (u : UndoManager) (h : Inv u) :
    Inv (snapshot op u).1 := by
  rcases hrec : u.recording with _ | _
  · rw [snapshot_not_recording op u hrec]
    exact h
  · rw [inv_iff] at h
    obtain ⟨-, -, -, -, hpos, hlen, -⟩ := snapshot_spec op u hrec h.1 h.2.1
    rw [inv_iff]
    omega

lemma inv_undo (u : UndoManager) (h : Inv u) : Inv (undo u).1 := by
  unfold undo
  split
  · exact h
  · rename_i hc
    simp only [Bool.not_eq_true', Bool.not_eq_false] at hc
    rw [canUndo_iff] at hc
    simp only [Inv] at h ⊢
    omega

lemma inv_redo (u : UndoManager) (h : Inv u) : Inv (redo u).1 := by
  unfold redo
  split
  · exact h
  · rename_i hc
    simp only [Bool.not_eq_true', Bool.not_eq_false] at hc
    rw [canRedo_iff] at hc
    simp only [Inv] at h ⊢
    omega

lemma undo_cases (u : UndoManager) :
    (canUndo u = false → undo u = (u, false)) ∧
    (canUndo u = true →
      (undo u).2 = true ∧
      (undo u).1.stack = u.stack ∧
      (undo u).1.index = u.index - 1 ∧
      (undo u).1.lastOp = "" ∧
      (undo u).1.recording = u.recording ∧
      (undo u).1.model.state = u.stack.getD (u.index - 1).toNat default ∧
      (undo u).1.model.lastSet
        = some (u.stack.getD (u.index - 1).toNat default, ⟨false, "undo"⟩)) := by
  unfold undo
  constructor
  · intro h
    simp [h]
  · intro h
    simp [h, Model.setState]

lemma redo_cases (u : UndoManager) :
    (canRedo u = false → redo u = (u, false)) ∧
    (canRedo u = true →
      (redo u).2 = true ∧
      (redo u).1.stack = u.stack ∧
      (redo u).1.index = u.index + 1 ∧
      (redo u).1.lastOp = "" ∧
      (redo u).1.recording = u.recording ∧
      (redo u).1.model.state = u.stack.getD (u.index + 1).toNat default ∧
      (redo u).1.model.lastSet
        = some (u.stack.getD (u.index + 1).toNat default, ⟨false, "redo"⟩)) := by
  unfold redo
  constructor
  · intro h
    simp [h]
  · intro h
    simp [h, Model.setState]

lemma coalesces_empty (op : Option String) : coalesces op "" = false := by
  unfold coalesces
  rcases op with _ | s
  · rfl
  · by_cases hs : s = "" <;> simp [hs]

lemma snapApply_no_evict (op : Option String) (u1 : UndoManager)
    (htop : u1.index = (u1.stack.length : Int) - 1)
    (hlen : u1.stack.length < maximumDepth) :
    snapApply op u1
      = { u1 with stack := u1.stack ++ [u1.model.state]
                  index := u1.index + 1
                  lastOp := op.getD "" } := by
  have ht : (u1.index + 1).toNat = u1.stack.length := by omega
  simp only [snapApply, ht, List.take_length, Model.getState]
  rw [if_neg]
  simp only [List.length_append, List.length_cons, List.length_nil]
  omega

lemma evictRun_spec (n : Nat) :
    (evictRun n).recording = true ∧
    (evictRun n).stack
      = (List.range' (n - maximumDepth) (min n maximumDepth)).map mkState ∧
    (evictRun n).index = ((min n maximumDepth : Nat) : Int) - 1 := by
  have hmd : maximumDepth = 1000 := rfl
  induction n with
  | zero =>
    refine ⟨rfl, ?_, rfl⟩
    simp [evictRun, freshRecording, startRecording, make, reset]
  | succ n ih =>
    obtain ⟨hrec, hstack, hindex⟩ := ih
    have hlen : (evictRun n).stack.length = min n maximumDepth := by
      rw [hstack]
      simp [List.length_map, List.length_range']
    have hrec' : (hostEdit (mkState n) (evictRun n)).recording = true := hrec
    have hv : evictRun (n + 1)
        = snapApply none (hostEdit (mkState n) (evictRun n)) := by
      show (snapshot none (hostEdit (mkState n) (evictRun n))).1 = _
      rw [snapshot_eq_snapApply none _ hrec']
      rfl
    rw [hv]
    clear hv
    by_cases hn : n < maximumDepth
    · have htop : (hostEdit (mkState n) (evictRun n)).index
          = (((hostEdit (mkState n) (evictRun n)).stack.length : Nat) : Int) - 1 := by
        show (evictRun n).index = (((evictRun n).stack.length : Nat) : Int) - 1
        rw [hindex, hlen]
      have hlt : (hostEdit (mkState n) (evictRun n)).stack.length < maximumDepth := by
        show (evictRun n).stack.length < maximumDepth
        rw [hlen]
        omega
      rw [snapApply_no_evict none _ htop hlt]
      refine ⟨hrec, ?_, ?_⟩
      · show (evictRun n).stack ++ [mkState n] = _
        rw [hstack]
        have h2 : (n + 1) - maximumDepth = 0 := by omega
        have h3 : min (n + 1) maximumDepth = n + 1 := by omega
        have h4 : n - maximumDepth = 0 := by omega
        have h1 : min n maximumDepth = n := by omega
        rw [h2, h3, h4, h1, List.range'_concat]
        simp
      · show (evictRun n).index + 1 = _
        rw [hindex]
        omega
    · have ht : ((hostEdit (mkState n) (evictRun n)).index + 1).toNat
          = (hostEdit (mkState n) (evictRun n)).stack.length := by
        show ((evictRun n).index + 1).toNat = (evictRun n).stack.length
        rw [hindex, hlen]
        omega
      have hcond : ((hostEdit (mkState n) (evictRun n)).stack
          ++ [(hostEdit (mkState n) (evictRun n)).model.getState]).length
            > maximumDepth := by
        simp only [List.length_append, List.length_cons, List.length_nil]
        show (evictRun n).stack.length + (0 + 1) > maximumDepth
        rw [hlen]
        omega
      simp only [snapApply, ht, List.take_length]
      rw [if_pos hcond]
      refine ⟨hrec, ?_, ?_⟩
      · show ((evictRun n).stack ++ [mkState n]).tail = _
        rw [hstack]
        have h1 : min n maximumDepth = maximumDepth := by omega
        have h5 : min (n + 1) maximumDepth = maximumDepth := by omega
        rw [h1, h5]
        have e1 : List.range' (n - maximumDepth) maximumDepth
            = (n - maximumDepth) :: List.range' (n - maximumDepth + 1) 999 := by
          rw [hmd]
          rw [show (1000 : Nat) = 999 + 1 from rfl, List.range'_succ]
        have e2 : List.range' (n + 1 - maximumDepth) maximumDepth
            = List.range' (n + 1 - maximumDepth) 999
                ++ [(n + 1 - maximumDepth) + 1 * 999] := by
          rw [hmd]
          rw [show (1000 : Nat) = 999 + 1 from rfl, List.range'_concat]
        rw [e1, e2]
        simp only [List.map_cons, List.cons_append, List.tail_cons, List.map_append]
        have e3 : n - maximumDepth + 1 = n + 1 - maximumDepth := by omega
        have e4 : (n + 1 - maximumDepth) + 1 * 999 = n := by omega
        rw [e3, e4]
        simp
      · show (evictRun n).index + 1 - 1 = _
        rw [hindex]
        omega

lemma pop_at_top (w : UndoManager) (hcu : canUndo w = true) :
    pop w = { w with stack := w.stack.take w.index.toNat, index := w.index - 1 } := by
  simp only [pop, hcu, Bool.not_true, Bool.false_eq_true, if_false]

lemma snapshot_coalesce_top (w : UndoManager) (s : String)
    (hrec : w.recording = true)
    (hco : coalesces (some s) w.lastOp = true)
    (htop : w.index = (w.stack.length : Int) - 1)
    (hlen1 : 2 ≤ w.stack.length) (hlen2 : w.stack.length ≤ maximumDepth) :
    (snapshot (some s) w).1.stack
      = w.stack.take (w.stack.length - 1) ++ [w.model.state] ∧
    (snapshot (some s) w).1.stack.length = w.stack.length ∧
    (snapshot (some s) w).1.index = w.index ∧
    (snapshot (some s) w).1.lastOp = s := by
  have hcu : canUndo w = true := by
    rw [canUndo_iff]
    omega
  rw [snapshot_eq_snapApply _ _ hrec]
  simp only [hco, if_true]
  rw [pop_at_top w hcu]
  have hplen : (w.stack.take w.index.toNat).length = w.stack.length - 1 := by
    rw [List.length_take]
    omega
  rw [snapApply_no_evict]
  · have hidx : w.index.toNat = w.stack.length - 1 := by omega
    refine ⟨?_, ?_, ?_, rfl⟩
    · simp only [hidx]
    · simp only [List.length_append, List.length_cons, List.length_nil, hplen]
      omega
    · simp only
      omega
  · simp only [hplen]
    omega
  · simp only [hplen]
    omega

/-! ### Claims -/

/-- Claim C1, counterexample: the claim quantifies over every engine state
with recording enabled, but from a freshly constructed engine (empty stack)
two `snapshot("insert")` calls grow the stack by two entries, not one: the
coalescing `pop()` is a no-op because `canUndo()` is false while the first
snapshot is the only entry. -/
theorem coalescing_counterexample :
    freshRecording.recording = true ∧
    (snapshot (some "insert") (hostEdit (mkState 1)
        (snapshot (some "insert")
          (hostEdit (mkState 0) freshRecording)).1)).1.stack.length
      = freshRecording.stack.length + 2 := by
  decide

/-- Claim C1 (amended): for every engine state with recording enabled whose
stack is nonempty and below `maximumDepth`, whose index is at the top, and
whose last-operation tag is not `"insert"`, calling `snapshot("insert")`
twice (with a host edit before each call and no `stopCoalescing` between
them) grows the stack by exactly one entry in total, and the retained new
entry's content reflects only the state captured by the second call. -/
theorem coalescing_growth (u : UndoManager) (m1 m2 : ModelState)
    (hrec : u.recording = true)
    (hne : u.lastOp ≠ "insert")
    (htop : u.index = (u.stack.length : Int) - 1)
    (hlen1 : 1 ≤ u.stack.length) (hlen2 : u.stack.length < maximumDepth) :
    (snapshot (some "insert") (hostEdit m2
        (snapshot (some "insert") (hostEdit m1 u)).1)).1.stack
      = u.stack ++ [m2] ∧
    (snapshot (some "insert") (hostEdit m2
        (snapshot (some "insert") (hostEdit m1 u)).1)).1.stack.length
      = u.stack.length + 1 := by
  have hb : (("insert" : String) == u.lastOp) = false :=
    beq_eq_false_iff_ne.mpr (Ne.symm hne)
  have hco1 : coalesces (some "insert") (hostEdit m1 u).lastOp = false := by
    show coalesces (some "insert") u.lastOp = false
    simp [coalesces, hb]
  have h1 : (snapshot (some "insert") (hostEdit m1 u)).1
      = snapApply (some "insert") (hostEdit m1 u) := by
    rw [snapshot_eq_snapApply _ _ (show (hostEdit m1 u).recording = true from hrec)]
    simp only [hco1, Bool.false_eq_true, if_false]
  set v1 := (snapshot (some "insert") (hostEdit m1 u)).1 with hv1
  have hv1eq : v1
      = { model := { u.model with state := m1 }
          recording := u.recording
          stack := u.stack ++ [m1]
          index := u.index + 1
          lastOp := "insert" } := by
    rw [h1,
      snapApply_no_evict _ _
        (show (hostEdit m1 u).index
            = (((hostEdit m1 u).stack.length : Nat) : Int) - 1 from htop)
        (show (hostEdit m1 u).stack.length < maximumDepth from hlen2)]
    rfl
  have hv1stack : v1.stack = u.stack ++ [m1] := by rw [hv1eq]
  have hv1idx : v1.index = u.index + 1 := by rw [hv1eq]
  have hv1last : v1.lastOp = "insert" := by rw [hv1eq]
  have hv1rec : v1.recording = true := by rw [hv1eq]; exact hrec
  have hco2 : coalesces (some "insert") (hostEdit m2 v1).lastOp = true := by
    show coalesces (some "insert") v1.lastOp = true
    rw [hv1last]
    decide
  have htop2 : (hostEdit m2 v1).index
      = ((hostEdit m2 v1).stack.length : Int) - 1 := by
    show v1.index = (v1.stack.length : Int) - 1
    rw [hv1idx, hv1stack]
    simp only [List.length_append, List.length_cons, List.length_nil]
    omega
  have hlen1b : 2 ≤ (hostEdit m2 v1).stack.length := by
    show 2 ≤ v1.stack.length
    rw [hv1stack]
    simp only [List.length_append, List.length_cons, List.length_nil]
    omega
  have hlen2b : (hostEdit m2 v1).stack.length ≤ maximumDepth := by
    show v1.stack.length ≤ maximumDepth
    rw [hv1stack]
    simp only [List.length_append, List.length_cons, List.length_nil]
    omega
  obtain ⟨hs, -, -, -⟩ := snapshot_coalesce_top (hostEdit m2 v1) "insert"
    (show (hostEdit m2 v1).recording = true from hv1rec) hco2 htop2 hlen1b hlen2b
  have main : (snapshot (some "insert") (hostEdit m2 v1)).1.stack
      = u.stack ++ [m2] := by
    rw [hs]
    show v1.stack.take (v1.stack.length - 1) ++ [m2] = u.stack ++ [m2]
    rw [hv1stack]
    have hl : (u.stack ++ [m1]).length - 1 = u.stack.length := by simp
    rw [hl, List.take_left]
  refine ⟨main, ?_⟩
  rw [main]
  simp

/-- Claim C2: starting from a reset engine with recording enabled (a freshly
constructed engine is `make m = reset {...}`), after any sequence of
`snapshot` calls (each preceded by an arbitrary host edit),
`stack.length ≤ maximumDepth` holds; since the sequence is arbitrary, the
bound holds after every call of any longer sequence. -/
theorem bounded_depth (u : UndoManager)
    (steps : List (Option String × ModelState)) :
    (runSnapshots (startRecording (reset u)) steps).stack.length
      ≤ maximumDepth := by
  apply runSnapshots_length_le
  show ([] : List ModelState).length ≤ maximumDepth
  simp [maximumDepth]

/-- Claim C3: position validity (`-1 ≤ index < stack.length`; a valid element
whenever the stack is nonempty; `index = -1` only on an empty stack) is
established by `reset` and preserved by every public operation. -/
theorem position_validity (u : UndoManager) (sel : Option Selection)
    (op : Option String) (h : Inv u) :
    Inv (reset u) ∧ Inv (startRecording u) ∧ Inv (stopRecording u) ∧
    Inv (stopCoalescing sel u) ∧ Inv (snapshot op u).1 ∧ Inv (pop u) ∧
    Inv (undo u).1 ∧ Inv (redo u).1 :=
  ⟨inv_reset u, inv_startRecording u h, inv_stopRecording u h,
   inv_stopCoalescing sel u h, inv_snapshot op u h, inv_pop u h,
   inv_undo u h, inv_redo u h⟩

/-- Witness for C3 at a concrete state. -/
theorem position_validity_witness :
    Inv sampleA ∧
    (Inv (reset sampleA) ∧ Inv (startRecording sampleA) ∧
     Inv (stopRecording sampleA) ∧
     Inv (stopCoalescing (some ⟨1⟩) sampleA) ∧
     Inv (snapshot (some "insert") sampleA).1 ∧ Inv (pop sampleA) ∧
     Inv (undo sampleA).1 ∧ Inv (redo sampleA).1) :=
  ⟨by decide, position_validity sampleA (some ⟨1⟩) (some "insert") (by decide)⟩

/-- Claim C4: pushing `maximumDepth + 5` distinct non-coalescing snapshots
onto a freshly constructed recording engine leaves exactly the most recent
`maximumDepth` states (the 5 oldest entries are gone) with the index at the
top (`maximumDepth - 1`). -/
theorem eviction_after_overflow :
    (evictRun (maximumDepth + 5)).stack
      = (List.range' 5 maximumDepth).map mkState ∧
    (evictRun (maximumDepth + 5)).stack.length = maximumDepth ∧
    (evictRun (maximumDepth + 5)).index = (maximumDepth : Int) - 1 := by
  obtain ⟨-, hstack, hindex⟩ := evictRun_spec (maximumDepth + 5)
  have h1 : maximumDepth + 5 - maximumDepth = 5 := by omega
  have h2 : min (maximumDepth + 5) maximumDepth = maximumDepth := by omega
  rw [hstack, hindex, h1, h2]
  refine ⟨rfl, ?_, rfl⟩
  simp [List.length_map, List.length_range']

/-- Witness for C1 (amended) at a concrete state. -/
theorem coalescing_growth_witness :
    (sampleA.recording = true ∧ sampleA.lastOp ≠ "insert" ∧
     sampleA.index = (sampleA.stack.length : Int) - 1 ∧
     1 ≤ sampleA.stack.length ∧ sampleA.stack.length < maximumDepth) ∧
    ((snapshot (some "insert") (hostEdit (mkState 11)
        (snapshot (some "insert") (hostEdit (mkState 10) sampleA)).1)).1.stack
      = sampleA.stack ++ [mkState 11] ∧
     (snapshot (some "insert") (hostEdit (mkState 11)
        (snapshot (some "insert") (hostEdit (mkState 10) sampleA)).1)).1.stack.length
      = sampleA.stack.length + 1) :=
  ⟨⟨by decide, by decide, by decide, by decide, by decide⟩,
   coalescing_growth sampleA (mkState 10) (mkState 11)
     (by decide) (by decide) (by decide) (by decide) (by decide)⟩

/-- Claim C5: every `snapshot` call that returns `true` discards the redo
branch: afterwards the index is at the top of the stack and `canRedo()` is
false. -/
theorem redo_truncation (u : UndoManager) (op : Option String)
    (h1 : -1 ≤ u.index) (h2 : u.index < (u.stack.length : Int))
    (hs : (snapshot op u).2 = true) :
    canRedo (snapshot op u).1 = false ∧
    ((snapshot op u).1.stack.length : Int) = (snapshot op u).1.index + 1 := by
  rcases hrec : u.recording with _ | _
  · rw [snapshot_not_recording op u hrec] at hs
    simp at hs
  · obtain ⟨-, -, -, -, hpos, hlen, -⟩ := snapshot_spec op u hrec h1 h2
    refine ⟨?_, hlen⟩
    cases hcx : canRedo (snapshot op u).1
    · rfl
    · have := (canRedo_iff _).mp hcx
      omega

/-- Witness for C5: the spec scenario — stack of depth 3 at position 2,
`undo()` (position 1), then `snapshot("x")`: `canRedo()` is false and the
discarded entry is unrecoverable. -/
theorem redo_truncation_witness :
    (-1 ≤ (undo sampleA).1.index ∧
     (undo sampleA).1.index < ((undo sampleA).1.stack.length : Int) ∧
     (snapshot (some "x") (undo sampleA).1).2 = true) ∧
    (canRedo (snapshot (some "x") (undo sampleA).1).1 = false ∧
     ((snapshot (some "x") (undo sampleA).1).1.stack.length : Int)
       = (snapshot (some "x") (undo sampleA).1).1.index + 1) :=
  ⟨⟨by decide, by decide, by decide⟩,
   redo_truncation (undo sampleA).1 (some "x") (by decide) (by decide) (by decide)⟩

/-- Claim C6: `undo()` returns false and changes nothing when `canUndo()` is
false; otherwise it restores the model to the snapshot at `index - 1` with
transition kind `"undo"`, decrements the index, clears the last-operation
tag, leaves the stack unchanged, and returns true. -/
theorem undo_contract (u : UndoManager) :
    (canUndo u = false → undo u = (u, false)) ∧
    (canUndo u = true →
      (undo u).2 = true ∧
      (undo u).1.stack = u.stack ∧
      (undo u).1.index = u.index - 1 ∧
      (undo u).1.lastOp = "" ∧
      (undo u).1.recording = u.recording ∧
      (undo u).1.model.state = u.stack.getD (u.index - 1).toNat default ∧
      (undo u).1.model.lastSet
        = some (u.stack.getD (u.index - 1).toNat default, ⟨false, "undo"⟩)) :=
  undo_cases u

/-- Witness for C6 at concrete states covering both branches. -/
theorem undo_contract_witness :
    ((undo sampleA).2 = true ∧
     (undo sampleA).1.stack = sampleA.stack ∧
     (undo sampleA).1.index = sampleA.index - 1 ∧
     (undo sampleA).1.lastOp = "" ∧
     (undo sampleA).1.recording = sampleA.recording ∧
     (undo sampleA).1.model.state
       = sampleA.stack.getD (sampleA.index - 1).toNat default ∧
     (undo sampleA).1.model.lastSet
       = some (sampleA.stack.getD (sampleA.index - 1).toNat default,
           ⟨false, "undo"⟩)) ∧
    undo freshRecording = (freshRecording, false) :=
  ⟨(undo_contract sampleA).2 (by decide),
   (undo_contract freshRecording).1 (by decide)⟩

/-- Claim C7: with recording enabled, after a successful `snapshot` followed
by `undo()` followed by `redo()`, the document model's state equals the state
immediately after the original `snapshot` call. -/
theorem snapshot_undo_redo_roundtrip (u : UndoManager) (op : Option String)
    (hrec : u.recording = true) (h1 : -1 ≤ u.index)
    (h2 : u.index < (u.stack.length : Int)) :
    (snapshot op u).2 = true ∧
    (redo (undo (snapshot op u).1).1).1.model.state
      = (snapshot op u).1.model.state := by
  obtain ⟨hs, hm, -, -, hpos, hlen, hget⟩ := snapshot_spec op u hrec h1 h2
  refine ⟨hs, ?_⟩
  set v := (snapshot op u).1 with hv
  have hvm : v.model.state = u.model.state := by rw [hm]
  cases hcu : canUndo v with
  | false =>
    have hu : undo v = (v, false) := (undo_cases v).1 hcu
    rw [hu]
    have hcr : canRedo v = false := by
      cases hcx : canRedo v
      · rfl
      · have := (canRedo_iff v).mp hcx
        omega
    show (redo v).1.model.state = v.model.state
    rw [(redo_cases v).1 hcr]
  | true =>
    obtain ⟨-, hustack, huidx, -, -, -, -⟩ := (undo_cases v).2 hcu
    have hcrw : canRedo (undo v).1 = true := by
      rw [canRedo_iff, hustack, huidx]
      have := (canUndo_iff v).mp hcu
      omega
    obtain ⟨-, -, -, -, -, hrstate, -⟩ := (redo_cases (undo v).1).2 hcrw
    rw [hrstate, hustack, huidx, hvm, ← hget]
    congr 1
    have := (canUndo_iff v).mp hcu
    omega

/-- Witness for C7 at a concrete state. -/
theorem snapshot_undo_redo_roundtrip_witness :
    (sampleA.recording = true ∧ -1 ≤ sampleA.index ∧
     sampleA.index < (sampleA.stack.length : Int)) ∧
    ((snapshot (some "x") sampleA).2 = true ∧
     (redo (undo (snapshot (some "x") sampleA).1).1).1.model.state
       = (snapshot (some "x") sampleA).1.model.state) :=
  ⟨⟨by decide, by decide, by decide⟩,
   snapshot_undo_redo_roundtrip sampleA (some "x")
     (by decide) (by decide) (by decide)⟩

/-- Claim C8: `snapshot(op)` returns false and leaves the state unchanged
exactly when recording is disabled, for every `op`; recording disabled is the
only condition under which it returns false. -/
theorem recording_gate (u : UndoManager) (op : Option String) :
    (u.recording = false → snapshot op u = (u, false)) ∧
    ((snapshot op u).2 = false ↔ u.recording = false) := by
  constructor
  · exact snapshot_not_recording op u
  · rcases hrec : u.recording with _ | _
    · simp [snapshot_not_recording op u hrec]
    · rw [snapshot_eq_snapApply op u hrec]

/-- Witness for C8 at a concrete non-recording state. -/
theorem recording_gate_witness :
    snapshot (some "insert") (stopRecording sampleA)
      = (stopRecording sampleA, false) ∧
    ((snapshot (some "insert") (stopRecording sampleA)).2 = false ↔
      (stopRecording sampleA).recording = false) :=
  ⟨(recording_gate (stopRecording sampleA) (some "insert")).1 (by decide),
   (recording_gate (stopRecording sampleA) (some "insert")).2⟩

/-- Claim C9: `stopCoalescing(selection?)` clears the last-operation tag; if
a selection is supplied and the stack is non-empty, it replaces in place the
selection field of the snapshot at the current position (preserving its
content); it never changes the stack length, the position, the model, any
other snapshot, or the recording flag. -/
theorem stopCoalescing_contract (u : UndoManager) (sel : Selection) (j : Nat)
    (h : Inv u) :
    stopCoalescing none u = { u with lastOp := "" } ∧
    (stopCoalescing (some sel) u).lastOp = "" ∧
    (stopCoalescing (some sel) u).recording = u.recording ∧
    (stopCoalescing (some sel) u).index = u.index ∧
    (stopCoalescing (some sel) u).model = u.model ∧
    (stopCoalescing (some sel) u).stack.length = u.stack.length ∧
    (u.stack = [] → (stopCoalescing (some sel) u).stack = u.stack) ∧
    (u.stack ≠ [] →
      (stopCoalescing (some sel) u).stack
        = u.stack.set u.index.toNat
            { u.stack.getD u.index.toNat default with selection := sel } ∧
      ((stopCoalescing (some sel) u).stack.getD u.index.toNat default).content
        = (u.stack.getD u.index.toNat default).content ∧
      ((stopCoalescing (some sel) u).stack.getD u.index.toNat default).selection
        = sel) ∧
    (j ≠ u.index.toNat →
      (stopCoalescing (some sel) u).stack.getD j default
        = u.stack.getD j default) := by
  obtain ⟨hinv1, hinv2, hinv3, hinv4⟩ := h
  have hchar : stopCoalescing (some sel) u
      = if u.index ≥ 0
        then { u with
                stack := u.stack.set u.index.toNat
                  { u.stack.getD u.index.toNat default with selection := sel }
                lastOp := "" }
        else { u with lastOp := "" } := by
    unfold stopCoalescing
    dsimp only
    by_cases h0 : u.index ≥ 0
    · simp only [if_pos h0]
    · simp only [if_neg h0]
  have hne_imp : u.stack ≠ [] → u.index ≥ 0 :=
    fun hne => (hinv3 (List.length_pos.mpr hne)).1
  have hnil_imp : u.stack = [] → ¬ u.index ≥ 0 := by
    intro hnil h0
    rw [hnil] at hinv2
    simp at hinv2
    omega
  refine ⟨rfl, ?_, ?_, ?_, ?_, ?_, ?_, ?_, ?_⟩
  · rw [hchar]; split <;> rfl
  · rw [hchar]; split <;> rfl
  · rw [hchar]; split <;> rfl
  · rw [hchar]; split <;> rfl
  · rw [hchar]
    split
    · simp [List.length_set]
    · rfl
  · intro hnil
    rw [hchar, if_neg (hnil_imp hnil)]
  · intro hne
    have h0 := hne_imp hne
    have hlt : u.index.toNat < u.stack.length := by omega
    rw [hchar, if_pos h0]
    have hgd : ((u.stack.set u.index.toNat
        { u.stack.getD u.index.toNat default with selection := sel }).getD
          u.index.toNat default)
        = { u.stack.getD u.index.toNat default with selection := sel } := by
      rw [List.getD_eq_getElem?_getD, List.getElem?_set_self hlt]
      rfl
    exact ⟨rfl, by rw [hgd], by rw [hgd]⟩
  · intro hj
    rw [hchar]
    split
    · show (u.stack.set u.index.toNat _).getD j default = u.stack.getD j default
      simp only [List.getD_eq_getElem?_getD, List.getElem?_set_ne (Ne.symm hj)]
    · rfl

/-- Witness for C9 at a concrete state. -/
theorem stopCoalescing_contract_witness :
    Inv sampleA ∧
    (stopCoalescing none sampleA = { sampleA with lastOp := "" } ∧
     (stopCoalescing (some ⟨7⟩) sampleA).lastOp = "" ∧
     (stopCoalescing (some ⟨7⟩) sampleA).recording = sampleA.recording ∧
     (stopCoalescing (some ⟨7⟩) sampleA).index = sampleA.index ∧
     (stopCoalescing (some ⟨7⟩) sampleA).model = sampleA.model ∧
     (stopCoalescing (some ⟨7⟩) sampleA).stack.length = sampleA.stack.length ∧
     (sampleA.stack = [] → (stopCoalescing (some ⟨7⟩) sampleA).stack = sampleA.stack) ∧
     (sampleA.stack ≠ [] →
       (stopCoalescing (some ⟨7⟩) sampleA).stack
         = sampleA.stack.set sampleA.index.toNat
             { sampleA.stack.getD sampleA.index.toNat default with selection := ⟨7⟩ } ∧
       ((stopCoalescing (some ⟨7⟩) sampleA).stack.getD
           sampleA.index.toNat default).content
         = (sampleA.stack.getD sampleA.index.toNat default).content ∧
       ((stopCoalescing (some ⟨7⟩) sampleA).stack.getD
           sampleA.index.toNat default).selection = ⟨7⟩) ∧
     ((0 : Nat) ≠ sampleA.index.toNat →
       (stopCoalescing (some ⟨7⟩) sampleA).stack.getD 0 default
         = sampleA.stack.getD 0 default)) :=
  ⟨by decide, stopCoalescing_contract sampleA ⟨7⟩ 0 (by decide)⟩

/-- Claim C10: the implicit invariant "a nonempty last-operation tag implies
the index is at the newest entry" is preserved by every public operation
(given position validity), so a same-tag snapshot issued while a redo branch
exists can never coalesce. -/
theorem coalescing_context_invariant (u : UndoManager) (sel : Option Selection)
    (op : Option String) (h : Inv u) (hc : CoalesceInv u) :
    CoalesceInv (reset u) ∧ CoalesceInv (startRecording u) ∧
    CoalesceInv (stopRecording u) ∧ CoalesceInv (stopCoalescing sel u) ∧
    CoalesceInv (snapshot op u).1 ∧ CoalesceInv (pop u) ∧
    CoalesceInv (undo u).1 ∧ CoalesceInv (redo u).1 ∧
    (canRedo u = true → coalesces op u.lastOp = false) := by
  obtain ⟨hi1, hi2, hi3, hi4⟩ := h
  refine ⟨?_, hc, hc, ?_, ?_, ?_, ?_, ?_, ?_⟩
  · intro hne
    exact absurd rfl hne
  · intro hne
    exact absurd rfl hne
  · rcases hrec : u.recording with _ | _
    · rw [snapshot_not_recording op u hrec]
      exact hc
    · obtain ⟨-, -, -, -, hpos, hlen, -⟩ := snapshot_spec op u hrec hi1 hi2
      intro _
      omega
  · unfold pop
    split
    · exact hc
    · rename_i hcnd
      simp only [Bool.not_eq_true', Bool.not_eq_false] at hcnd
      rw [canUndo_iff] at hcnd
      intro _
      show u.index - 1 = ((u.stack.take u.index.toNat).length : Int) - 1
      rw [List.length_take]
      omega
  · unfold undo
    split
    · exact hc
    · intro hne
      exact absurd rfl hne
  · unfold redo
    split
    · exact hc
    · intro hne
      exact absurd rfl hne
  · intro hcr
    by_cases hl : u.lastOp = ""
    · rw [hl]
      exact coalesces_empty op
    · exfalso
      have h2 := hc hl
      rw [canRedo_iff] at hcr
      omega

/-- Witness for C10 at a concrete state with an active coalescing context. -/
theorem coalescing_context_invariant_witness :
    (Inv sampleTagged ∧ CoalesceInv sampleTagged) ∧
    (CoalesceInv (reset sampleTagged) ∧
     CoalesceInv (startRecording sampleTagged) ∧
     CoalesceInv (stopRecording sampleTagged) ∧
     CoalesceInv (stopCoalescing (some ⟨2⟩) sampleTagged) ∧
     CoalesceInv (snapshot (some "insert") sampleTagged).1 ∧
     CoalesceInv (pop sampleTagged) ∧
     CoalesceInv (undo sampleTagged).1 ∧ CoalesceInv (redo sampleTagged).1 ∧
     (canRedo sampleTagged = true →
       coalesces (some "insert") sampleTagged.lastOp = false)) :=
  ⟨⟨by decide, by decide⟩,
   coalescing_context_invariant sampleTagged (some ⟨2⟩) (some "insert")
     (by decide) (by decide)⟩

end UndoSpec
